import Mathlib

/-!
Shallow embedding of the `blessings` double-buffered terminal rendering core
(`src/lib.rs`, `src/cell.rs`, `src/cursor.rs`, `src/util.rs`).

Conventions of the embedding:
* Rust `u16` values are modelled as `Nat`.  Rust subtraction on `u16` panics
  on underflow (debug builds), so every subtraction appearing in the source is
  modelled by the checked operation `sub?`; an operation that can panic
  returns `Option`.  Additions cannot make any claim-relevant difference at
  the inputs considered, so they are modelled as unbounded `Nat` addition.
* Grids (`Box<[Cell]>`) are modelled as `List Cell`; the struct invariant of
  the source is `new_screen.length = width * height` (and the same for
  `cur_screen`), carried as a hypothesis where a theorem needs it.
  Indexed writes (`self.new_screen[index] = ...`) panic out of bounds in
  Rust, so they are modelled by the checked `writeCell` / `fillRange`.
* The `crossterm` backend is modelled by the inductive `Call`: a render emits
  an ordered list of backend calls (`SetColors`, `MoveTo`, `Print`,
  cursor-style / visibility changes, and the final flush).
* The window stack (`Vec<WindowBounds>`, pushed/popped at the back) is
  modelled as a list whose head is the top of the stack.
-/

/-- Model of `crossterm::style::Color`: the code only ever compares colors for
equality and uses `Color::Reset` as the distinguished default, so the named
palette is collapsed into a numbered constructor. -/
inductive Color where
  | reset : Color
  | ansi (n : Nat) : Color
deriving DecidableEq, Repr

/-- `src/cursor.rs`: the seven cursor shapes. -/
inductive CursorStyle where
  | DefaultUserShape
  | BlinkingBlock
  | SteadyBlock
  | BlinkingUnderScore
  | SteadyUnderScore
  | BlinkingBar
  | SteadyBar
deriving DecidableEq, Repr

/-- `src/cell.rs`: one grid cell. -/
structure Cell where
  fg_color : Color
  bg_color : Color
  c : Char
deriving DecidableEq, Repr

/-- `Cell::EMPTY`: reset colors and a space character. -/
def Cell.EMPTY : Cell := ⟨Color.reset, Color.reset, ' '⟩

/-- `src/util.rs`: `Point`. -/
structure Point where
  x : Nat
  y : Nat
deriving DecidableEq, Repr

def Point.ZERO : Point := ⟨0, 0⟩

/-- `src/util.rs`: `WindowBounds` (absolute grid coordinates). -/
structure WindowBounds where
  x : Nat
  y : Nat
  width : Nat
  height : Nat
deriving DecidableEq, Repr

/-- `ClearType` from `src/lib.rs`. -/
inductive ClearType where
  | All
  | CurrentLine
  | UntilNewline
  | Current
deriving DecidableEq, Repr

/-- The `Screen` struct from `src/lib.rs`.  The window stack's top is the
head of `windows`. -/
structure Screen where
  new_screen : List Cell
  cur_screen : List Cell
  width : Nat
  height : Nat
  cursor : Point
  stored_cursor : Point
  force_redraw : Bool
  fg_color : Color
  bg_color : Color
  new_cursor_style : CursorStyle
  cur_cursor_style : CursorStyle
  new_cursor_visibility : Bool
  cur_cursor_visibility : Bool
  windows : List WindowBounds
deriving DecidableEq, Repr

/-- Checked `u16` subtraction: Rust `a - b` panics when `b > a`. -/
def sub? (a b : Nat) : Option Nat :=
  if b ≤ a then some (a - b) else none

/-- Checked indexed write, modelling `grid[i] = cell` (panics out of bounds).
The source assigns all three fields of the cell, i.e. replaces it whole. -/
def writeCell (g : List Cell) (i : Nat) (cell : Cell) : Option (List Cell) :=
  if i < g.length then some (g.set i cell) else none

/-- Checked slice fill, modelling `grid[start..stop].fill(Cell::EMPTY)`
(panics when `start > stop` or `stop > len`). -/
def fillRange (g : List Cell) (start stop : Nat) : Option (List Cell) :=
  if start ≤ stop ∧ stop ≤ g.length then
    some (g.take start ++ List.replicate (stop - start) Cell.EMPTY ++ g.drop stop)
  else none

/-- `Screen::is_base_window` (note: the source returns `windows.len() > 0`). -/
def Screen.is_base_window (s : Screen) : Bool :=
  decide (0 < s.windows.length)

/-- `Screen::get_current_window`. -/
def Screen.get_current_window (s : Screen) : WindowBounds :=
  match s.windows with
  | w :: _ => w
  | [] => ⟨0, 0, s.width, s.height⟩

/-- `Screen::begin_window`.  All four subtractions of the source are checked:
`outer_width - 1`, `outer_height - 1`, `outer_width - x` and the source's
`outer_height - x` (sic: the height is clamped against `x`). -/
def Screen.begin_window (s : Screen) (x y width height : Nat) : Option Screen := do
  let (outer_x, outer_y, outer_width, outer_height) :=
    match s.windows with
    | w :: _ => (w.x, w.y, w.width, w.height)
    | [] => (0, 0, s.width, s.height)
  let ow1 ← sub? outer_width 1
  let oh1 ← sub? outer_height 1
  let x := min (outer_x + x) ow1
  let y := min (outer_y + y) oh1
  let wrem ← sub? outer_width x
  let hrem ← sub? outer_height x
  let width := min width wrem
  let height := min height hrem
  some { s with
    cursor := Point.ZERO
    stored_cursor := Point.ZERO
    windows := ⟨x, y, width, height⟩ :: s.windows }

/-- `Screen::end_window`. -/
def Screen.end_window (s : Screen) : Screen :=
  match s.windows with
  | [] => s
  | w :: rest =>
    { s with
      windows := rest
      cursor := ⟨w.x + s.cursor.x, w.y + s.cursor.y⟩
      stored_cursor := ⟨w.x + s.stored_cursor.x, w.y + s.stored_cursor.y⟩ }

/-- `Screen::move_to`: `x.clamp(0, width - 1)` on `u16` is `min x (width - 1)`,
with the subtraction checked. -/
def Screen.move_to (s : Screen) (x y : Nat) : Option Screen := do
  let window := s.get_current_window
  let wm ← sub? window.width 1
  let hm ← sub? window.height 1
  some { s with cursor := ⟨min x wm, min y hm⟩ }

/-- The character loop of `Screen::print` (`src/lib.rs` lines 263-286).
State: remaining characters, grid, and the loop-local `x`, `y` — which the
source initializes from the *window-relative* cursor but then uses as
absolute coordinates (`index = y * width + x`) and wraps against
`window_x + window_width` / `window_x + window_height` (sic: the newline
branch wraps the row against `window_x`). -/
def printGo (window_x window_y window_width window_height width : Nat)
    (fg bg : Color) :
    List Char → List Cell → Nat → Nat → Option (List Cell × Nat × Nat)
  | [], g, x, y => some (g, x, y)
  | ch :: rest, g, x, y =>
    if ch = '\n' then
      let x := window_x
      let y := y + 1
      let y := if window_x + window_height ≤ y then window_y else y
      printGo window_x window_y window_width window_height width fg bg rest g x y
    else do
      let g ← writeCell g (y * width + x) ⟨fg, bg, ch⟩
      let x := x + 1
      if window_x + window_width ≤ x then
        let x := window_x
        let y := y + 1
        let y := if window_y + window_height ≤ y then window_y else y
        printGo window_x window_y window_width window_height width fg bg rest g x y
      else
        printGo window_x window_y window_width window_height width fg bg rest g x y

/-- `Screen::print` (the `String` version).  The final
`x.try_into().unwrap()` is modelled as the identity on `Nat`. -/
def Screen.printStr (s : Screen) (message : List Char) : Option Screen := do
  let window := s.get_current_window
  let (g, x, y) ← printGo window.x window.y window.width window.height
    s.width s.fg_color s.bg_color message s.new_screen s.cursor.x s.cursor.y
  some { s with new_screen := g, cursor := ⟨x, y⟩ }

/-- `Screen::print_char`.  Unlike `print`, this translates the
window-relative cursor to absolute coordinates for the write and wraps the
relative cursor against the window's own width/height. -/
def Screen.print_char (s : Screen) (ch : Char) : Option Screen :=
  let window := s.get_current_window
  if ch = '\n' then
    let y := s.cursor.y + 1
    some { s with cursor := ⟨0, if window.height ≤ y then 0 else y⟩ }
  else do
    let index := (window.y + s.cursor.y) * s.width + (window.x + s.cursor.x)
    let g ← writeCell s.new_screen index ⟨s.fg_color, s.bg_color, ch⟩
    let x := s.cursor.x + 1
    if window.width ≤ x then
      let y := s.cursor.y + 1
      some { s with new_screen := g,
                    cursor := ⟨0, if window.height ≤ y then 0 else y⟩ }
    else
      some { s with new_screen := g, cursor := ⟨x, s.cursor.y⟩ }

/-- The row loop of `Screen::clear`'s `All` branch for a sub-window:
`for y in window.y .. window.y + window.height`, filling
`[y*width + window.x, y*width + window.x + window.width)`.
`y0` is the current row, the first argument counts remaining rows. -/
def clearRows (width window_x window_width : Nat) :
    Nat → Nat → List Cell → Option (List Cell)
  | 0, _, g => some g
  | rows + 1, y0, g => do
    let index := y0 * width + window_x
    let g ← fillRange g index (index + window_width)
    clearRows width window_x window_width rows (y0 + 1) g

/-- `Screen::clear`. -/
def Screen.clear (s : Screen) (ty : ClearType) : Option Screen := do
  let window := s.get_current_window
  match ty with
  | ClearType.All =>
    if s.is_base_window then
      some { s with new_screen := List.replicate s.new_screen.length Cell.EMPTY }
    else do
      let g ← clearRows s.width window.x window.width window.height window.y
        s.new_screen
      some { s with new_screen := g }
  | ClearType.CurrentLine =>
    let start := (window.y + s.cursor.y) * s.width
    let g ← fillRange s.new_screen start (start + window.width)
    some { s with new_screen := g }
  | ClearType.UntilNewline =>
    let line_start := (window.y + s.cursor.y) * s.width + window.x
    let g ← fillRange s.new_screen (line_start + s.cursor.x)
      (line_start + window.width)
    some { s with new_screen := g }
  | ClearType.Current =>
    let index := (window.y + s.cursor.y) * s.width + (window.x + s.cursor.x)
    let g ← writeCell s.new_screen index Cell.EMPTY
    some { s with new_screen := g }

/-- One `copy_from_slice` of `Screen::resize`'s row loop: overwrite
`buf[newStart .. newStart + cw)` with `old[oldStart .. oldStart + cw)`. -/
def copyRow (buf old : List Cell) (newStart oldStart cw : Nat) : List Cell :=
  buf.take newStart ++ (old.drop oldStart).take cw ++ buf.drop (newStart + cw)

/-- The row loop of `Screen::resize`: rows `0 .. rows` copied in order. -/
def copyRows (old : List Cell) (old_width new_width cw : Nat) :
    Nat → List Cell → List Cell
  | 0, buf => buf
  | rows + 1, buf =>
    copyRow (copyRows old old_width new_width cw rows buf) old
      (rows * new_width) (rows * old_width) cw

/-- `Screen::resize`.  The new buffer is filled with `EMPTY`, the common
top-left rectangle is copied row by row from the old front grid, the back
grid becomes a clone of the new front grid, the cursors are clamped (checked
`width - 1` / `height - 1`), and the force-redraw flag is set. -/
def Screen.resize (s : Screen) (width height : Nat) : Option Screen := do
  let old_width := s.width
  let old_height := s.height
  let new_buffer := List.replicate (width * height) Cell.EMPTY
  let common_width := min old_width width
  let common_height := min old_height height
  let new_buffer :=
    copyRows s.new_screen old_width width common_width common_height new_buffer
  let wm ← sub? width 1
  let hm ← sub? height 1
  some { s with
    width := width
    height := height
    new_screen := new_buffer
    cur_screen := new_buffer
    cursor := ⟨min s.cursor.x wm, min s.cursor.y hm⟩
    stored_cursor := ⟨min s.stored_cursor.x wm, min s.stored_cursor.y hm⟩
    force_redraw := true }

/-- A backend call queued on the `crossterm` terminal backend. -/
inductive Call where
  | setColors (fg bg : Color)
  | moveTo (x y : Nat)
  | print (text : List Char)
  | setCursorStyle (st : CursorStyle)
  | showCursor
  | hideCursor
  | flush
deriving DecidableEq, Repr

/-- The flush of a pending run `[start, i)` shared by both render modes:
`if start < i`, queue `MoveTo(start % width, start / width)` and one `Print`
of the run's characters sliced from the grid. -/
def flushRun (g : List Cell) (width start i : Nat) : List Call :=
  if start < i then
    [Call.moveTo (start % width) (start / width),
     Call.print (((g.drop start).take (i - start)).map Cell.c)]
  else []

/-- The scan loop of `Screen::print_whole_screen`.  The source iterates
`i = y*width + x` over `[0, width*height)` (for `width ≥ 1`; the struct
invariant gives `new_screen.length = width*height`), so the loop is embedded
as structural recursion over the cells not yet visited, with `i` the index of
the head cell and `start` the pending run's first index. -/
def pwsGo (g : List Cell) (width : Nat) :
    List Cell → Nat → Nat → Color → Color → List Call
  | [], i, start, _, _ => flushRun g width start i
  | cell :: rest, i, start, fg, bg =>
    if cell.fg_color ≠ fg ∨ cell.bg_color ≠ bg then
      flushRun g width start i
        ++ Call.setColors cell.fg_color cell.bg_color
          :: pwsGo g width rest (i + 1) i cell.fg_color cell.bg_color
    else
      pwsGo g width rest (i + 1) start fg bg

/-- `Screen::print_whole_screen`: an unconditional initial
`SetColors(Reset, Reset)`, then the run-batched scan of the front grid. -/
def Screen.print_whole_screen (s : Screen) : List Call :=
  Call.setColors Color.reset Color.reset ::
    pwsGo s.new_screen s.width s.new_screen 0 0 Color.reset Color.reset

/-- The incremental scan loop of `Screen::show`: front and back grids are
walked in lockstep; equal cells flush any pending run and restart it past the
current cell; differing cells extend the run, with a color-change flush when
the cell's pair differs from the last emitted pair. -/
def incGo (g : List Cell) (width : Nat) :
    List Cell → List Cell → Nat → Nat → Color → Color → List Call
  | ncell :: nrest, ccell :: crest, i, start, fg, bg =>
    if ncell = ccell then
      flushRun g width start i ++ incGo g width nrest crest (i + 1) (i + 1) fg bg
    else if ncell.fg_color ≠ fg ∨ ncell.bg_color ≠ bg then
      flushRun g width start i
        ++ Call.setColors ncell.fg_color ncell.bg_color
          :: incGo g width nrest crest (i + 1) i ncell.fg_color ncell.bg_color
    else
      incGo g width nrest crest (i + 1) start fg bg
  | _, _, i, start, _, _ => flushRun g width start i

/-- The content-emitting part of `Screen::show`: full redraw when the
force-redraw flag is set, otherwise the incremental diff (which also begins
with an unconditional `SetColors(Reset, Reset)`). -/
def Screen.contentCalls (s : Screen) : List Call :=
  if s.force_redraw then
    s.print_whole_screen
  else
    Call.setColors Color.reset Color.reset ::
      incGo s.new_screen s.width s.new_screen s.cur_screen 0 0
        Color.reset Color.reset

/-- The cursor-style call of `Screen::show` (emitted only on a mismatch). -/
def Screen.styleCalls (s : Screen) : List Call :=
  if s.new_cursor_style ≠ s.cur_cursor_style then
    [Call.setCursorStyle s.new_cursor_style]
  else []

/-- The cursor-visibility call of `Screen::show` (emitted only on a
mismatch). -/
def Screen.visibilityCalls (s : Screen) : List Call :=
  if s.new_cursor_visibility ≠ s.cur_cursor_visibility then
    [if s.new_cursor_visibility then Call.showCursor else Call.hideCursor]
  else []

/-- The full ordered sequence of backend calls queued by one `Screen::show`:
content, cursor style, cursor visibility, the final cursor `MoveTo`, and the
flush. -/
def Screen.showCalls (s : Screen) : List Call :=
  s.contentCalls ++ s.styleCalls ++ s.visibilityCalls
    ++ [Call.moveTo s.cursor.x s.cursor.y, Call.flush]

/-- The state after a fully successful `Screen::show`: last-emitted cursor
style and visibility synced, the force-redraw flag cleared, and the back grid
overwritten from the front grid (`copy_from_slice`). -/
def Screen.showApply (s : Screen) : Screen :=
  { s with
    cur_cursor_style := s.new_cursor_style
    cur_cursor_visibility := s.new_cursor_visibility
    force_redraw := false
    cur_screen := s.new_screen }

/-- The state left behind when the backend call at (0-based) index `k` of
`showCalls` fails: every `?` before it has succeeded, so the last-emitted
cursor style (at index `contentCalls.length`) and visibility (right after)
are synced exactly when their calls precede index `k`; the back-grid copy and
the force-redraw reset come only after the flush, hence never happen. -/
def Screen.failState (s : Screen) (k : Nat) : Screen :=
  let n := s.contentCalls.length
  { s with
    cur_cursor_style :=
      if s.new_cursor_style ≠ s.cur_cursor_style ∧ n < k then
        s.new_cursor_style
      else s.cur_cursor_style
    cur_cursor_visibility :=
      if s.new_cursor_visibility ≠ s.cur_cursor_visibility
          ∧ n + s.styleCalls.length < k then
        s.new_cursor_visibility
      else s.cur_cursor_visibility }

/-- `Screen::show` under a backend-failure oracle: `failAt = some k` makes
the `k`-th queued call return an I/O error (if there are that many calls),
aborting via `?`; `failAt = none` is an error-free backend. -/
def Screen.showRun (s : Screen) (failAt : Option Nat) : Except Screen Screen :=
  match failAt with
  | none => Except.ok s.showApply
  | some k =>
    if k < s.showCalls.length then Except.error (s.failState k)
    else Except.ok s.showApply

/-- The characters written by the `Print` calls of a trace, in emission
order. -/
def printedChars : List Call → List Char
  | [] => []
  | Call.print text :: rest => text ++ printedChars rest
  | _ :: rest => printedChars rest

/-- Whether a backend call is a content write (`Print`). -/
def isContentWrite : Call → Bool
  | Call.print _ => true
  | _ => false

/-- Number of content-write (`Print`) calls in a trace. -/
def countPrints (trace : List Call) : Nat :=
  (trace.filter isContentWrite).length

/-- Whether two cells carry the same foreground/background color pair. -/
def samePair (a b : Cell) : Bool :=
  a.fg_color == b.fg_color && a.bg_color == b.bg_color

/-- Modelled from the spec, for comparison with `pwsGo`: the maximal runs of
consecutive cells sharing one foreground/background color pair, in row-major
order. -/
def chunkRuns : List Cell → List (List Cell)
  | [] => []
  | [cell] => [[cell]]
  | cell :: next :: rest =>
    match chunkRuns (next :: rest) with
    | [] => [[cell]]
    | r :: rs =>
      if samePair cell next then (cell :: r) :: rs else [cell] :: r :: rs

/-- The color pair of a run (its first cell's pair). -/
def runPair : List Cell → Color × Color
  | [] => (Color.reset, Color.reset)
  | cell :: _ => (cell.fg_color, cell.bg_color)

/-- Modelled from the spec (claim C1's reading of §4.4 full-redraw mode), for
comparison with `pwsGo`: walk the maximal color runs; emit a color-change
exactly when a run's pair differs from the previously emitted pair
(initially the reset pair), and for every run a cursor-move to the run's
starting position followed by one `Print` of the run's characters. -/
def specTraceGo (width : Nat) :
    List (List Cell) → Nat → Color × Color → List Call
  | [], _, _ => []
  | r :: rs, pos, prev =>
    let p := runPair r
    (if p ≠ prev then [Call.setColors p.1 p.2] else [])
      ++ Call.moveTo (pos % width) (pos / width)
        :: Call.print (r.map Cell.c)
          :: specTraceGo width rs (pos + r.length) p

/-- Modelled from the spec: the full-redraw trace claim C1 predicts for a
front grid. -/
def specTrace (width : Nat) (g : List Cell) : List Call :=
  specTraceGo width (chunkRuns g) 0 (Color.reset, Color.reset)

/-- A base screen: grid `g` at `w × h`, empty back grid, origin cursor,
reset colors, default cursor state, empty window stack. -/
def mkScreen (w h : Nat) (g : List Cell) : Screen :=
  { new_screen := g
    cur_screen := List.replicate (w * h) Cell.EMPTY
    width := w
    height := h
    cursor := Point.ZERO
    stored_cursor := Point.ZERO
    force_redraw := false
    fg_color := Color.reset
    bg_color := Color.reset
    new_cursor_style := CursorStyle.DefaultUserShape
    cur_cursor_style := CursorStyle.DefaultUserShape
    new_cursor_visibility := true
    cur_cursor_visibility := true
    windows := [] }

/-- A default-colored cell holding `A`. -/
def cellA : Cell := ⟨Color.reset, Color.reset, 'A'⟩

/-- A default-colored cell holding `B`. -/
def cellB : Cell := ⟨Color.reset, Color.reset, 'B'⟩

/-- 1×1 screen holding the default cell. -/
def demoOne : Screen := mkScreen 1 1 [Cell.EMPTY]

/-- 8×8 empty screen, empty window stack. -/
def demoGrid8 : Screen := mkScreen 8 8 (List.replicate 64 Cell.EMPTY)

/-- 10×2 empty screen, empty window stack. -/
def demoWide : Screen := mkScreen 10 2 (List.replicate 20 Cell.EMPTY)

/-- 4×4 empty screen with the sub-window `(1,1,2,2)` active and the cursor at
the window origin. -/
def demoPrint : Screen :=
  { mkScreen 4 4 (List.replicate 16 Cell.EMPTY) with
    windows := [⟨1, 1, 2, 2⟩] }

/-- 4×4 screen whose top-left cell (outside the active sub-window
`(1,1,2,2)`) holds `A`. -/
def demoClear : Screen :=
  { mkScreen 4 4 (cellA :: List.replicate 15 Cell.EMPTY) with
    windows := [⟨1, 1, 2, 2⟩] }

/-- 2×1 screen holding `A B` in its front grid. -/
def demoRow : Screen := mkScreen 2 1 [cellA, cellB]

theorem printedChars_append (a b : List Call) :
    printedChars (a ++ b) = printedChars a ++ printedChars b := by
  induction a with
  | nil => rfl
  | cons hd tl ih => cases hd <;> simp [printedChars, ih]

theorem samePair_iff (a b : Cell) :
    samePair a b = true ↔ a.fg_color = b.fg_color ∧ a.bg_color = b.bg_color := by
  simp [samePair]

theorem chunkRuns_cons_head (c : Cell) (rest : List Cell) :
    ∃ r rs, chunkRuns (c :: rest) = (c :: r) :: rs := by
  induction rest generalizing c with
  | nil => exact ⟨[], [], rfl⟩
  | cons next rest ih =>
    obtain ⟨r, rs, hr⟩ := ih next
    by_cases hsp : samePair c next = true
    · exact ⟨next :: r, rs, by simp [chunkRuns, hr, hsp]⟩
    · exact ⟨[], (next :: r) :: rs, by simp [chunkRuns, hr, hsp]⟩

theorem chunkRuns_flatten : ∀ l : List Cell, (chunkRuns l).flatten = l := by
  intro l
  induction l with
  | nil => rfl
  | cons c rest ih =>
    cases rest with
    | nil => rfl
    | cons next rest₂ =>
      obtain ⟨r, rs, hr⟩ := chunkRuns_cons_head next rest₂
      rw [hr] at ih
      by_cases hsp : samePair c next = true
      · simpa [chunkRuns, hr, hsp] using ih
      · simpa [chunkRuns, hr, hsp] using ih

theorem chunkRuns_all_same (fg bg : Color) :
    ∀ pend : List Cell, pend ≠ [] →
    (∀ x ∈ pend, x.fg_color = fg ∧ x.bg_color = bg) →
    chunkRuns pend = [pend] := by
  intro pend
  induction pend with
  | nil => intro h; exact absurd rfl h
  | cons p ps ih =>
    intro _ hall
    cases ps with
    | nil => rfl
    | cons q qs =>
      have hqs : chunkRuns (q :: qs) = [q :: qs] := by
        refine ih (by simp) ?_
        intro x hx
        exact hall x (List.mem_cons_of_mem p hx)
      have hp := hall p (by simp)
      have hq := hall q (by simp)
      have hsp : samePair p q = true := by
        rw [samePair_iff]
        exact ⟨hp.1.trans hq.1.symm, hp.2.trans hq.2.symm⟩
      simp [chunkRuns, hqs, hsp]

theorem chunkRuns_break (fg bg : Color) (c : Cell)
    (hc : c.fg_color ≠ fg ∨ c.bg_color ≠ bg) :
    ∀ (pend : List Cell) (rest : List Cell), pend ≠ [] →
    (∀ x ∈ pend, x.fg_color = fg ∧ x.bg_color = bg) →
    chunkRuns (pend ++ c :: rest) = pend :: chunkRuns (c :: rest) := by
  intro pend
  induction pend with
  | nil => intro rest h; exact absurd rfl h
  | cons p ps ih =>
    intro rest _ hall
    have hp := hall p (by simp)
    cases ps with
    | nil =>
      obtain ⟨r, rs, hr⟩ := chunkRuns_cons_head c rest
      have hsp : samePair p c = false := by
        rw [← Bool.not_eq_true, samePair_iff]
        rcases hc with h | h
        · exact fun hcon => h (hcon.1.symm.trans hp.1)
        · exact fun hcon => h (hcon.2.symm.trans hp.2)
      simp [chunkRuns, hr, hsp]
    | cons q qs =>
      have hqs := ih rest (by simp) (fun x hx => hall x (List.mem_cons_of_mem p hx))
      have hq := hall q (by simp)
      have hsp : samePair p q = true := by
        rw [samePair_iff]
        exact ⟨hp.1.trans hq.1.symm, hp.2.trans hq.2.symm⟩
      have hqs' : chunkRuns (q :: (qs ++ c :: rest)) = (q :: qs) :: chunkRuns (c :: rest) := by
        simpa using hqs
      simp [chunkRuns, hqs', hsp]

theorem specTraceGo_printed (width : Nat) :
    ∀ (chs : List (List Cell)) (pos : Nat) (prev : Color × Color),
    printedChars (specTraceGo width chs pos prev) = chs.flatten.map Cell.c := by
  intro chs
  induction chs with
  | nil => intro pos prev; rfl
  | cons r rs ih =>
    intro pos prev
    by_cases hp : runPair r ≠ prev <;>
      simp [specTraceGo, hp, printedChars_append, printedChars, ih]

theorem pws_main (g : List Cell) (width : Nat) :
    ∀ (rest pend : List Cell) (start : Nat) (fg bg : Color),
    g.drop start = pend ++ rest →
    (∀ x ∈ pend, x.fg_color = fg ∧ x.bg_color = bg) →
    pwsGo g width rest (start + pend.length) start fg bg
      = specTraceGo width (chunkRuns (pend ++ rest)) start (fg, bg) := by
  intro rest
  induction rest with
  | nil =>
    intro pend start fg bg hdrop hall
    rw [List.append_nil] at hdrop ⊢
    cases pend with
    | nil => simp [pwsGo, flushRun, chunkRuns, specTraceGo]
    | cons p ps =>
      rw [chunkRuns_all_same fg bg (p :: ps) (by simp) hall]
      have hp := hall p (by simp)
      have hrp : runPair (p :: ps) = (fg, bg) := by
        simp [runPair, hp.1, hp.2]
      simp only [pwsGo, flushRun, if_pos (show start < start + (p :: ps).length by simp)]
      rw [hdrop]
      simp [specTraceGo, hrp, List.take_length]
  | cons c rest₂ ih =>
    intro pend start fg bg hdrop hall
    have hdrop₂ : g.drop (start + pend.length) = c :: rest₂ := by
      rw [← List.drop_drop, hdrop, List.drop_left]
    by_cases hcp : c.fg_color ≠ fg ∨ c.bg_color ≠ bg
    · have hih := ih [c] (start + pend.length) c.fg_color c.bg_color
        (by simpa using hdrop₂)
        (by intro x hx; rw [List.mem_singleton] at hx; subst hx; exact ⟨rfl, rfl⟩)
      simp only [List.singleton_append, List.length_singleton] at hih
      have hne : (c.fg_color, c.bg_color) ≠ (fg, bg) := by
        intro h
        rw [Prod.mk.injEq] at h
        rcases hcp with h1 | h1
        · exact h1 h.1
        · exact h1 h.2
      obtain ⟨r, rs, hcr⟩ := chunkRuns_cons_head c rest₂
      cases pend with
      | nil =>
        simp only [List.length_nil, Nat.add_zero] at hih hdrop₂ ⊢
        simp only [List.nil_append]
        simp only [pwsGo, if_pos hcp, flushRun, Nat.lt_irrefl, if_neg (Nat.lt_irrefl start)]
        rw [hih, hcr]
        simp [specTraceGo, runPair, hne]
      | cons p ps =>
        have hp := hall p (by simp)
        have hrp : runPair (p :: ps) = (fg, bg) := by
          simp [runPair, hp.1, hp.2]
        rw [chunkRuns_break fg bg c hcp (p :: ps) rest₂ (by simp) hall]
        simp only [pwsGo, if_pos hcp]
        rw [hih, hcr]
        have hflush : flushRun g width start (start + (p :: ps).length)
            = [Call.moveTo (start % width) (start / width),
               Call.print ((p :: ps).map Cell.c)] := by
          rw [flushRun, if_pos (show start < start + (p :: ps).length by simp),
            hdrop, Nat.add_sub_cancel_left, List.take_left]
        rw [hflush]
        simp [specTraceGo, runPair, hp.1, hp.2, hne]
    · push_neg at hcp
      have hih := ih (pend ++ [c]) start fg bg
        (by simpa [List.append_assoc] using hdrop)
        (by
          intro x hx
          rcases List.mem_append.1 hx with hx | hx
          · exact hall x hx
          · rw [List.mem_singleton] at hx; subst hx; exact ⟨hcp.1, hcp.2⟩)
      have hnot : ¬(c.fg_color ≠ fg ∨ c.bg_color ≠ bg) := by
        push_neg
        exact hcp
      simp only [pwsGo, if_neg hnot]
      simpa [List.append_assoc] using hih

theorem incGo_self (g : List Cell) (width : Nat) :
    ∀ (l : List Cell) (i : Nat) (fg bg : Color),
    incGo g width l l i i fg bg = [] := by
  intro l
  induction l with
  | nil => intro i fg bg; simp [incGo, flushRun]
  | cons cell rest ih =>
    intro i fg bg
    simp [incGo, flushRun, ih]

theorem showRun_ok (s s' : Screen) (failAt : Option Nat)
    (h : s.showRun failAt = Except.ok s') : s' = s.showApply := by
  cases failAt with
  | none =>
    rw [Screen.showRun] at h
    exact (Except.ok.injEq _ _ ▸ h).symm
  | some k =>
    rw [Screen.showRun] at h
    split at h
    · exact absurd h (by simp)
    · exact (Except.ok.injEq _ _ ▸ h).symm

theorem showRun_error (s e : Screen) (failAt : Option Nat)
    (h : s.showRun failAt = Except.error e) : ∃ k, e = s.failState k := by
  cases failAt with
  | none =>
    rw [Screen.showRun] at h
    exact absurd h (by simp)
  | some k =>
    rw [Screen.showRun] at h
    split at h
    · exact ⟨k, ((Except.error.injEq _ _) ▸ h).symm⟩
    · exact absurd h (by simp)

/-- C2: invoking render (`show`) twice with no mutating operation in between
issues zero content-write (`Print`) backend calls on the second invocation:
after the first successful render the back grid equals the front grid and the
incremental diff skips equal-content runs entirely. -/
theorem show_twice_no_content_writes (s : Screen) (failAt : Option Nat)
    (s' : Screen) (h : s.showRun failAt = Except.ok s') :
    countPrints s'.showCalls = 0 := by
  rw [showRun_ok s s' failAt h]
  simp [Screen.showCalls, Screen.showApply, Screen.contentCalls,
    Screen.styleCalls, Screen.visibilityCalls, incGo_self,
    countPrints, isContentWrite, List.filter]

theorem show_twice_no_content_writes_witness :
    countPrints (Screen.showApply demoOne).showCalls = 0 :=
  show_twice_no_content_writes demoOne none demoOne.showApply rfl

/-- C8: a successful render leaves the back grid equal to the front grid and
clears the force-redraw flag; a render aborted by a backend I/O failure never
overwrites the back grid (the sync step is after every fallible call). -/
theorem show_sync_semantics (s : Screen) (failAt : Option Nat) :
    (∀ s', s.showRun failAt = Except.ok s' →
      s'.cur_screen = s'.new_screen ∧ s'.force_redraw = false)
    ∧ (∀ e, s.showRun failAt = Except.error e →
      e.cur_screen = s.cur_screen) := by
  constructor
  · intro s' h
    rw [showRun_ok s s' failAt h]
    exact ⟨rfl, rfl⟩
  · intro e h
    obtain ⟨k, hk⟩ := showRun_error s e failAt h
    rw [hk]
    rfl

theorem show_sync_semantics_witness :
    ((Screen.showApply demoOne).cur_screen = (Screen.showApply demoOne).new_screen
      ∧ (Screen.showApply demoOne).force_redraw = false)
    ∧ (Screen.failState demoOne 0).cur_screen = demoOne.cur_screen :=
  ⟨(show_sync_semantics demoOne none).1 demoOne.showApply rfl,
   (show_sync_semantics demoOne (some 0)).2 (demoOne.failState 0) rfl⟩

/-- C10: `end_window` on an empty window stack is a complete no-op. -/
theorem end_window_empty_noop (s : Screen) (h : s.windows = []) :
    s.end_window = s := by
  rw [Screen.end_window, h]

theorem end_window_empty_noop_witness : Screen.end_window demoOne = demoOne :=
  end_window_empty_noop demoOne rfl

/-- C1, counterexample: on a 1×1 default grid no cell's color pair differs
from the previously emitted (initial reset) pair, so the claim predicts no
color-change call, yet `print_whole_screen` begins with an unconditional
`SetColors(Reset, Reset)`. -/
theorem print_whole_screen_cex :
    Screen.print_whole_screen demoOne
      ≠ specTrace demoOne.width demoOne.new_screen := by
  decide

/-- C1 as amended: a full redraw emits exactly one unconditional initial
color-change to the reset pair, followed by exactly the calls of the
maximal-color-run description (color-change when a run's pair differs from
the previously emitted pair, cursor-move to each flushed run's start), and
the concatenated `Print` text equals the grid's characters in row-major
order. -/
theorem print_whole_screen_runs (s : Screen)
    (_hl : s.new_screen.length = s.width * s.height) (_hw : 0 < s.width) :
    s.print_whole_screen
        = Call.setColors Color.reset Color.reset
          :: specTrace s.width s.new_screen
      ∧ printedChars s.print_whole_screen = s.new_screen.map Cell.c := by
  have hmain := pws_main s.new_screen s.width s.new_screen [] 0
    Color.reset Color.reset (by simp) (by simp)
  simp only [List.length_nil, Nat.add_zero, List.nil_append] at hmain
  have htrace : s.print_whole_screen
      = Call.setColors Color.reset Color.reset
        :: specTrace s.width s.new_screen := by
    rw [Screen.print_whole_screen, hmain, specTrace]
  refine ⟨htrace, ?_⟩
  rw [htrace]
  show printedChars (Call.setColors Color.reset Color.reset
    :: specTrace s.width s.new_screen) = _
  rw [show printedChars (Call.setColors Color.reset Color.reset
      :: specTrace s.width s.new_screen)
      = printedChars (specTrace s.width s.new_screen) from rfl]
  rw [specTrace, specTraceGo_printed, chunkRuns_flatten]

theorem print_whole_screen_runs_witness :
    (Screen.print_whole_screen demoOne
        = Call.setColors Color.reset Color.reset
          :: specTrace demoOne.width demoOne.new_screen
      ∧ printedChars (Screen.print_whole_screen demoOne)
        = demoOne.new_screen.map Cell.c) :=
  print_whole_screen_runs demoOne rfl (by decide)

/-- C3 fails on `print`: with the sub-window `(1,1,2,2)` active and the
window-relative cursor at the window origin, `print("A")` writes the `A` at
absolute grid index 0 — outside the window — while the translated index 5
(absolute `(1,1)`) keeps its default cell: `print` uses the relative cursor
as absolute coordinates instead of translating it. -/
theorem print_ignores_window_translation :
    (demoPrint.printStr [ 'A' ]).map
        (fun t => (t.new_screen[0]?, t.new_screen[5]?))
      = some (some ⟨Color.reset, Color.reset, 'A'⟩, some Cell.EMPTY) := by
  decide

/-- C4 fails: on an 8×8 grid with an empty window stack,
`begin_window(0, 5, 1, 8)` pushes the window `(0, 5, 1, 8)`, whose bottom
`5 + 8 = 13` exceeds the grid height 8 (the height is clamped against
`outer_height - x`, the horizontal cursor, instead of the remaining vertical
space), so the active window is not contained in its parent rectangle. -/
theorem begin_window_escapes_parent :
    (Screen.begin_window demoGrid8 0 5 1 8).map (fun t => t.windows.head?)
        = some (some ⟨0, 5, 1, 8⟩)
      ∧ demoGrid8.height < 5 + 8 := by
  decide

/-- C5 fails on `All`: with the sub-window `(1,1,2,2)` active,
`clear(All)` erases the whole grid — including the `A` at absolute `(0,0)`,
outside the window — because `is_base_window` returns `windows.len() > 0`
(the opposite of what its name says), selecting the whole-grid fill exactly
when a sub-window is active. -/
theorem clear_all_escapes_window :
    (demoClear.clear ClearType.All).map (fun t => t.new_screen[0]?)
        = some (some Cell.EMPTY)
      ∧ demoClear.new_screen[0]? = some cellA
      ∧ cellA ≠ Cell.EMPTY := by
  decide

/-- C9 fails: geometry operations are not total.  On a 10×2 screen,
`begin_window(5, 0, 1, 1)` evaluates `outer_height - x = 2 - 5`, a `u16`
underflow (a panic, not a silent clamp), and `resize(0, 0)` underflows in
`cursor.x.min(width - 1)`. -/
theorem geometry_ops_panic :
    Screen.begin_window demoWide 5 0 1 1 = none
      ∧ Screen.resize demoWide 0 0 = none := by
  exact ⟨rfl, rfl⟩

theorem copyRow_length (buf old : List Cell) (ns os cw : Nat)
    (h1 : ns + cw ≤ buf.length) (h2 : os + cw ≤ old.length) :
    (copyRow buf old ns os cw).length = buf.length := by
  simp only [copyRow, List.length_append, List.length_take, List.length_drop]
  omega

theorem copyRow_getElem? (buf old : List Cell) (ns os cw j : Nat)
    (h1 : ns + cw ≤ buf.length) (h2 : os + cw ≤ old.length) :
    (copyRow buf old ns os cw)[j]? =
      if ns ≤ j ∧ j < ns + cw then old[os + (j - ns)]? else buf[j]? := by
  have hts : (buf.take ns).length = ns := by
    simp only [List.length_take]
    omega
  have hms : ((old.drop os).take cw).length = cw := by
    simp only [List.length_take, List.length_drop]
    omega
  rw [copyRow]
  by_cases hj1 : j < ns
  · rw [List.getElem?_append_left (by simp only [List.length_append, hts, hms]; omega),
      List.getElem?_append_left (by rw [hts]; exact hj1),
      List.getElem?_take]
    simp only [if_pos hj1]
    rw [if_neg (by omega)]
  · by_cases hj2 : j < ns + cw
    · rw [List.getElem?_append_left (by simp only [List.length_append, hts, hms]; omega),
        List.getElem?_append_right (by rw [hts]; omega),
        hts, List.getElem?_take]
      rw [if_pos (by omega), List.getElem?_drop, if_pos (by omega)]
    · rw [List.getElem?_append_right (by simp only [List.length_append, hts, hms]; omega)]
      simp only [List.length_append, hts, hms]
      rw [List.getElem?_drop, if_neg (by omega)]
      congr 1
      omega

theorem copyRows_length (old : List Cell) (w1 w2 cw h1 h2 : Nat)
    (hold : old.length = w1 * h1) (hcw1 : cw ≤ w1) (hcw2 : cw ≤ w2) :
    ∀ (rows : Nat) (buf : List Cell), buf.length = w2 * h2 →
    rows ≤ h1 → rows ≤ h2 →
    (copyRows old w1 w2 cw rows buf).length = w2 * h2 := by
  intro rows
  induction rows with
  | zero => intro buf hbuf _ _; simpa [copyRows] using hbuf
  | succ n ihn =>
    intro buf hbuf hr1 hr2
    have hinner := ihn buf hbuf (by omega) (by omega)
    rw [copyRows, copyRow_length]
    · exact hinner
    · rw [hinner]
      have hm : (n + 1) * w2 ≤ h2 * w2 := Nat.mul_le_mul_right w2 hr2
      have ha : n * w2 + w2 = (n + 1) * w2 := by ring
      have hb : w2 * h2 = h2 * w2 := Nat.mul_comm _ _
      omega
    · rw [hold]
      have hm : (n + 1) * w1 ≤ h1 * w1 := Nat.mul_le_mul_right w1 hr1
      have ha : n * w1 + w1 = (n + 1) * w1 := by ring
      have hb : w1 * h1 = h1 * w1 := Nat.mul_comm _ _
      omega

theorem copyRows_getElem? (old : List Cell) (w1 w2 cw h1 h2 : Nat)
    (hold : old.length = w1 * h1) (hcw1 : cw ≤ w1) (hcw2 : cw ≤ w2) :
    ∀ (rows : Nat) (buf : List Cell), buf.length = w2 * h2 →
    rows ≤ h1 → rows ≤ h2 →
    ∀ x y, x < w2 →
    (copyRows old w1 w2 cw rows buf)[y * w2 + x]? =
      if y < rows ∧ x < cw then old[y * w1 + x]? else buf[y * w2 + x]? := by
  intro rows
  induction rows with
  | zero => intro buf hbuf _ _ x y hx; simp [copyRows]
  | succ n ihn =>
    intro buf hbuf hr1 hr2 x y hx
    have hinner_len := copyRows_length old w1 w2 cw h1 h2 hold hcw1 hcw2 n buf
      hbuf (by omega) (by omega)
    have hb2 : n * w2 + cw ≤ w2 * h2 := by
      have hm : (n + 1) * w2 ≤ h2 * w2 := Nat.mul_le_mul_right w2 hr2
      have ha : n * w2 + w2 = (n + 1) * w2 := by ring
      have hb : w2 * h2 = h2 * w2 := Nat.mul_comm _ _
      omega
    have hb1 : n * w1 + cw ≤ w1 * h1 := by
      have hm : (n + 1) * w1 ≤ h1 * w1 := Nat.mul_le_mul_right w1 hr1
      have ha : n * w1 + w1 = (n + 1) * w1 := by ring
      have hb : w1 * h1 = h1 * w1 := Nat.mul_comm _ _
      omega
    rw [copyRows,
      copyRow_getElem? _ old (n * w2) (n * w1) cw (y * w2 + x)
        (by rw [hinner_len]; exact hb2) (by rw [hold]; exact hb1)]
    by_cases hy : y = n
    · subst hy
      by_cases hxc : x < cw
      · rw [if_pos (by omega), if_pos (by omega)]
        congr 1
        omega
      · rw [if_neg (by omega), ihn buf hbuf (by omega) (by omega) x y hx,
          if_neg (by omega), if_neg (by omega)]
    · have hcond : ¬(n * w2 ≤ y * w2 + x ∧ y * w2 + x < n * w2 + cw) := by
        rcases Nat.lt_or_ge y n with hlt | hge
        · intro hc
          have hm : (y + 1) * w2 ≤ n * w2 := Nat.mul_le_mul_right w2 (by omega)
          have ha : y * w2 + w2 = (y + 1) * w2 := by ring
          omega
        · intro hc
          have hm : (n + 1) * w2 ≤ y * w2 := Nat.mul_le_mul_right w2 (by omega)
          have ha : n * w2 + w2 = (n + 1) * w2 := by ring
          omega
      rw [if_neg hcond, ihn buf hbuf (by omega) (by omega) x y hx]
      by_cases hyc : y < n ∧ x < cw
      · rw [if_pos hyc, if_pos (by omega)]
      · rw [if_neg hyc, if_neg (by omega)]

theorem resize_some (s : Screen) (w2 h2 : Nat) (s2 : Screen)
    (hr : s.resize w2 h2 = some s2) : 1 ≤ w2 ∧ 1 ≤ h2 := by
  rcases Nat.lt_or_ge w2 1 with hw | hw
  · exfalso
    have hw0 : w2 = 0 := by omega
    subst hw0
    rw [Screen.resize] at hr
    simp [sub?] at hr
  · rcases Nat.lt_or_ge h2 1 with hh | hh
    · exfalso
      have hh0 : h2 = 0 := by omega
      subst hh0
      rw [Screen.resize] at hr
      simp [sub?, hw] at hr
    · exact ⟨hw, hh⟩

theorem resize_eq (s : Screen) (w2 h2 : Nat) (hw : 1 ≤ w2) (hh : 1 ≤ h2) :
    s.resize w2 h2 = some
      { s with
        width := w2
        height := h2
        new_screen := copyRows s.new_screen s.width w2 (min s.width w2)
          (min s.height h2) (List.replicate (w2 * h2) Cell.EMPTY)
        cur_screen := copyRows s.new_screen s.width w2 (min s.width w2)
          (min s.height h2) (List.replicate (w2 * h2) Cell.EMPTY)
        cursor := ⟨min s.cursor.x (w2 - 1), min s.cursor.y (h2 - 1)⟩
        stored_cursor :=
          ⟨min s.stored_cursor.x (w2 - 1), min s.stored_cursor.y (h2 - 1)⟩
        force_redraw := true } := by
  rw [Screen.resize]
  simp [sub?, hw, hh]

/-- C6: after any (non-panicking) resize to `(w2, h2)` the rectangle
`[0, min(w1,w2)) × [0, min(h1,h2))` of the new front grid equals the
corresponding rectangle of the old front grid, and every cell of the new
front grid outside that rectangle is the default `EMPTY` cell. -/
theorem resize_keeps_top_left (s : Screen) (w2 h2 : Nat) (s2 : Screen)
    (hl : s.new_screen.length = s.width * s.height)
    (hr : s.resize w2 h2 = some s2) :
    (∀ x y, x < min s.width w2 → y < min s.height h2 →
      s2.new_screen[y * w2 + x]? = s.new_screen[y * s.width + x]?)
    ∧ (∀ x y, x < w2 → y < h2 →
        (min s.width w2 ≤ x ∨ min s.height h2 ≤ y) →
      s2.new_screen[y * w2 + x]? = some Cell.EMPTY) := by
  obtain ⟨hw, hh⟩ := resize_some s w2 h2 s2 hr
  rw [resize_eq s w2 h2 hw hh, Option.some.injEq] at hr
  subst hr
  constructor
  · intro x y hx hy
    show (copyRows s.new_screen s.width w2 (min s.width w2) (min s.height h2)
      (List.replicate (w2 * h2) Cell.EMPTY))[y * w2 + x]? = _
    rw [copyRows_getElem? s.new_screen s.width w2 (min s.width w2) s.height h2
      hl (Nat.min_le_left _ _) (Nat.min_le_right _ _) (min s.height h2)
      (List.replicate (w2 * h2) Cell.EMPTY) (by simp)
      (Nat.min_le_left _ _) (Nat.min_le_right _ _) x y (by omega),
      if_pos ⟨hy, hx⟩]
  · intro x y hx hy hout
    show (copyRows s.new_screen s.width w2 (min s.width w2) (min s.height h2)
      (List.replicate (w2 * h2) Cell.EMPTY))[y * w2 + x]? = _
    rw [copyRows_getElem? s.new_screen s.width w2 (min s.width w2) s.height h2
      hl (Nat.min_le_left _ _) (Nat.min_le_right _ _) (min s.height h2)
      (List.replicate (w2 * h2) Cell.EMPTY) (by simp)
      (Nat.min_le_left _ _) (Nat.min_le_right _ _) x y hx,
      if_neg (by omega), List.getElem?_replicate, if_pos ?_]
    have hm : (y + 1) * w2 ≤ h2 * w2 := Nat.mul_le_mul_right w2 (by omega)
    have ha : y * w2 + w2 = (y + 1) * w2 := by ring
    have hb : w2 * h2 = h2 * w2 := Nat.mul_comm _ _
    omega

/-- The concrete result of `demoRow.resize 1 2`. -/
def demoRowResized : Screen :=
  { demoRow with
    width := 1
    height := 2
    new_screen := [cellA, Cell.EMPTY]
    cur_screen := [cellA, Cell.EMPTY]
    force_redraw := true }

theorem resize_keeps_top_left_witness :
    demoRowResized.new_screen[0 * 1 + 0]? = demoRow.new_screen[0 * 2 + 0]?
      ∧ demoRowResized.new_screen[1 * 1 + 0]? = some Cell.EMPTY :=
  ⟨(resize_keeps_top_left demoRow 1 2 demoRowResized rfl (by decide)).1 0 0
      (by decide) (by decide),
   (resize_keeps_top_left demoRow 1 2 demoRowResized rfl (by decide)).2 0 1
      (by decide) (by decide) (by decide)⟩

/-- C7, counterexample: resizing a 2×1 screen whose front grid holds `A B`
back to 2×1 leaves the back grid equal to the copied front grid
(`cur_screen = new_screen.clone()` in the source), not filled with the
default `EMPTY` cell. -/
theorem resize_back_grid_cex :
    (demoRow.resize 2 1).map (fun t => t.cur_screen) = some [cellA, cellB]
      ∧ cellA ≠ Cell.EMPTY := by
  decide

/-- C7 as amended: after every (non-panicking) resize the back grid is a
clone of the new front grid — not default-filled — and the force-redraw flag
is set, which is what makes the first post-resize render a full redraw. -/
theorem resize_back_grid_clone (s : Screen) (w2 h2 : Nat) (s2 : Screen)
    (hr : s.resize w2 h2 = some s2) :
    s2.cur_screen = s2.new_screen ∧ s2.force_redraw = true := by
  obtain ⟨hw, hh⟩ := resize_some s w2 h2 s2 hr
  rw [resize_eq s w2 h2 hw hh, Option.some.injEq] at hr
  subst hr
  exact ⟨rfl, rfl⟩

theorem resize_back_grid_clone_witness :
    demoRowResized.cur_screen = demoRowResized.new_screen
      ∧ demoRowResized.force_redraw = true :=
  resize_back_grid_clone demoRow 1 2 demoRowResized (by decide)
